import Mathlib

/-
  Verification of the larnd-sim charge-transport and pixel-readout pipeline.

  Shallow embedding of the Python sources:
    - src/larndsim/consts.py          (detector and physics constants)
    - src/larndsim/quenching.py       (quench kernel)
    - src/detsim.py                   (torch Drifting module)
    - src/larndsim/detsim.py          (track_current, z_interval)
    - src/larndsim/pixels_from_track.py (pixel2id, id2pixel, Bresenham walk,
                                         neighboring pixels)
    - src/larndsim/consts/physics.py  (set_physics)

  Machine floats are embedded as real or rational numbers; Python floor
  division and modulo on nonnegative operands with positive divisors agree
  with Lean Int division, which is used below.
-/

set_option maxHeartbeats 1000000
set_option linter.unusedVariables false

namespace LarndSim

/-! ## Constants from src/larndsim/consts.py -/

/-- Liquid argon density in g per cubic cm (consts.py line 6). -/
def lArDensity : ℝ := 1.38

/-- Electric field magnitude in kV per cm (consts.py line 7). -/
def eField : ℝ := 0.50

/-- Conversion factor from MeV to number of electrons (consts.py line 19). -/
def MeVToElectrons : ℝ := 4.237e4

/-- Recombination alpha constant for the Box model (consts.py line 20). -/
def alpha : ℝ := 0.847

/-- Recombination beta constant for the Box model (consts.py line 21). -/
def beta : ℝ := 0.2061

/-- Birks model A_b constant (consts.py line 22). -/
def Ab : ℝ := 0.800

/-- Birks model k_b constant (consts.py line 23). -/
def kb : ℝ := 0.0486

/-- Box model selector (consts.py line 52). -/
def box : ℤ := 1

/-- Birks model selector (consts.py line 53). -/
def birks : ℤ := 2

/-! ## Quenching (src/larndsim/quenching.py, kernel quench)

The kernel reads dEdx and dE of a track, computes the recombination
factor according to the selected model, raises on an unknown model, and
writes recomb * dE * MeVToElectrons into the n_electrons field.  The
isnan guard of the source has no counterpart over the reals, where no NaN
value exists. -/

/-- Fields of one track row used by the quench kernel. -/
structure QTrack where
  dEdx : ℝ
  dE : ℝ
  n_electrons : ℝ

/-- Embedding of the body of the quench kernel for a single track
(quenching.py lines 42 to 60): branch on the mode, compute the
recombination factor, error on an unknown mode, then write the
n_electrons field. -/
noncomputable def quenchTrack (mode : ℤ) (t : QTrack) : Except String QTrack :=
  if mode = box then
    let csi := beta * t.dEdx / (eField * lArDensity)
    let recomb := max 0 (Real.log (alpha + csi) / csi)
    Except.ok { t with n_electrons := recomb * t.dE * MeVToElectrons }
  else if mode = birks then
    let recomb := Ab / (1 + kb * t.dEdx / (eField * lArDensity))
    Except.ok { t with n_electrons := recomb * t.dE * MeVToElectrons }
  else
    Except.error "Invalid recombination mode: must be box or birks"

/-! ## Pixel identifiers (src/larndsim/pixels_from_track.py)

The per-plane pixel counts n_pixels[0] and n_pixels[1] are loaded from
the detector descriptor by larndsim/consts/detector.py, which is not part
of the sources given here; following the specification (section 4.A: Nx
and Ny per plane) they are taken as parameters Nx and Ny below. -/

/-- Embedding of pixel2id (pixels_from_track.py line 30):
ix + Nx * (iy + Ny * plane). -/
def pixel2id (Nx Ny ix iy plane : ℤ) : ℤ := ix + Nx * (iy + Ny * plane)

/-- Embedding of id2pixel (pixels_from_track.py lines 44 to 45):
(id mod Nx, (id div Nx) mod Ny, id div (Nx * Ny)). -/
def id2pixel (Nx Ny id : ℤ) : ℤ × ℤ × ℤ :=
  (id % Nx, (id / Nx) % Ny, id / (Nx * Ny))

/-! ## set_physics (src/larndsim/consts/physics.py)

The module-level constants of consts/physics.py are embedded as one
record, and set_physics as a state transformer fed with the values read
from the YAML file.  In the source, the function body lists the global
declarations on lines 33 to 39; the line that should read global
BIRKS_kb actually reads global BIRST_kb (a misspelling), so by Python
scoping the assignment BIRKS_kb = phys["birks_kb"] on line 46 binds a
function-local name and the module-level BIRKS_kb keeps its prior value.
All other assignments target names that are declared global and update
the module state. -/

/-- Module-level constants of consts/physics.py. -/
structure PhysicsConsts where
  BOX_ALPHA : ℝ
  BOX_BETA : ℝ
  BIRKS_Ab : ℝ
  BIRKS_kb : ℝ
  E_CHARGE : ℝ
  W_ION : ℝ
  QUENCHING_MODEL : ℤ

/-- Values read from the physics YAML file by set_physics. -/
structure PhysicsFile where
  box_alpha : ℝ
  box_beta : ℝ
  birks_Ab : ℝ
  birks_kb : ℝ
  e : ℝ
  w_ion : ℝ
  quenching_model : ℤ

/-- Embedding of set_physics (consts/physics.py lines 25 to 50): every
assignment whose target is listed in a global declaration updates the
module state; the assignment to BIRKS_kb is function-local because the
global declaration misspells it as BIRST_kb, so the module field keeps
its prior value. -/
def set_physics (st : PhysicsConsts) (f : PhysicsFile) : PhysicsConsts :=
  { BOX_ALPHA := f.box_alpha
    BOX_BETA := f.box_beta
    BIRKS_Ab := f.birks_Ab
    BIRKS_kb := st.BIRKS_kb
    E_CHARGE := f.e
    W_ION := f.w_ion
    QUENCHING_MODEL := f.quenching_model }

/-! ## Time-window rounding (src/larndsim/detsim.py, track_current)

Lines 296 to 300 of larndsim/detsim.py round the signal window of a
segment to the sampling grid with Python floor division:
  t_start = (track.t_start - time_padding) // t_sampling * t_sampling
  t_end   = (track.t_end + time_padding) // t_sampling * t_sampling
Python floor division a // b on numbers equals the floor of a / b. -/

/-- Python floor division over the rationals. -/
def pyFloorDiv (a b : ℚ) : ℚ := (⌊a / b⌋ : ℤ)

/-- Embedding of the signal-window rounding at the start of
track_current: returns the pair (t_start_round, t_end_round). -/
def trackTimeWindow (t_start t_end t_sampling time_padding : ℚ) : ℚ × ℚ :=
  (pyFloorDiv (t_start - time_padding) t_sampling * t_sampling,
   pyFloorDiv (t_end + time_padding) t_sampling * t_sampling)

/-! ## The z interval of integration (src/larndsim/detsim.py, z_interval)

Lines 38 to 90 of larndsim/detsim.py: the segment endpoints are ordered
by their x coordinate (equal x returns the pair (0, 0)); the point of
closest approach of the 2-D projected segment line to the pixel center
is computed and its x coordinate clamped to the segment x range; the
distance of closest approach doca is the distance to the nearer segment
endpoint when the clamp is active, else the point-line distance; when
the tolerance exceeds doca, the chord of the disc of radius tolerance
around the pixel center is walked from the clamped POCA in both 2-D
directions and mapped to z through the 3-D direction of the segment. -/

/-- A 3-D point as used by z_interval. -/
structure Point3 where
  x : ℝ
  y : ℝ
  z : ℝ

/-- Unclamped x coordinate of the point of closest approach
(larndsim/detsim.py lines 55 to 60), written with the line coefficients
a = m, b = -1, c = q of the source. -/
noncomputable def pocaX (s e : Point3) (x_p y_p : ℝ) : ℝ :=
  let m := (e.y - s.y) / (e.x - s.x)
  let q := (e.x * s.y - s.x * e.y) / (e.x - s.x)
  ((-1) * ((-1) * x_p - m * y_p) - m * q) / (m * m + (-1) * (-1))

/-- Clamp of the POCA x coordinate to the segment x range
(larndsim/detsim.py lines 66 to 71). -/
noncomputable def xPocaClamped (s e : Point3) (x_p y_p : ℝ) : ℝ :=
  if pocaX s e x_p y_p < s.x then s.x
  else if pocaX s e x_p y_p > e.x then e.x
  else pocaX s e x_p y_p

/-- Distance of closest approach (larndsim/detsim.py lines 66 to 73):
distance to the nearer endpoint when the POCA is clamped, else the
point-line distance. -/
noncomputable def doca (s e : Point3) (x_p y_p : ℝ) : ℝ :=
  let m := (e.y - s.y) / (e.x - s.x)
  let q := (e.x * s.y - s.x * e.y) / (e.x - s.x)
  if pocaX s e x_p y_p < s.x then
    Real.sqrt ((x_p - s.x) ^ 2 + (y_p - s.y) ^ 2)
  else if pocaX s e x_p y_p > e.x then
    Real.sqrt ((x_p - e.x) ^ 2 + (y_p - e.y) ^ 2)
  else
    |m * x_p + (-1) * y_p + q| / Real.sqrt (m * m + (-1) * (-1))

/-- Body of z_interval after the endpoint ordering, for s.x < e.x
(larndsim/detsim.py lines 52 to 90). -/
noncomputable def z_intervalOrd (s e : Point3) (x_p y_p tolerance : ℝ) : ℝ × ℝ :=
  let length := Real.sqrt ((e.x - s.x) ^ 2 + (e.y - s.y) ^ 2 + (e.z - s.z) ^ 2)
  let dir3Dx := (e.x - s.x) / length
  let dir3Dz := (e.z - s.z) / length
  if tolerance > doca s e x_p y_p then
    let length2D := Real.sqrt ((e.x - s.x) ^ 2 + (e.y - s.y) ^ 2)
    let dir2Dx := (e.x - s.x) / length2D
    let deltaL2D := Real.sqrt (tolerance ^ 2 - doca s e x_p y_p ^ 2)
    let plusDeltaL := (xPocaClamped s e x_p y_p + deltaL2D * dir2Dx - s.x) / dir3Dx
    let minusDeltaL := (xPocaClamped s e x_p y_p - deltaL2D * dir2Dx - s.x) / dir3Dx
    let plusDeltaZ := s.z + dir3Dz * plusDeltaL
    let minusDeltaZ := s.z + dir3Dz * minusDeltaL
    (min minusDeltaZ plusDeltaZ, max minusDeltaZ plusDeltaZ)
  else
    (min 0 0, max 0 0)

/-- The z coordinate of the segment point above the clamped POCA;
abbreviation used to state the closed form of z_intervalOrd. -/
noncomputable def zPocaOnSeg (s e : Point3) (x_p y_p : ℝ) : ℝ :=
  s.z + (e.z - s.z) * (xPocaClamped s e x_p y_p - s.x) / (e.x - s.x)

/-- Signed z deviation of the chord ends from the POCA z coordinate;
abbreviation used to state the closed form of z_intervalOrd. -/
noncomputable def zDev (s e : Point3) (x_p y_p tolerance : ℝ) : ℝ :=
  (e.z - s.z) * Real.sqrt (tolerance ^ 2 - doca s e x_p y_p ^ 2) /
    Real.sqrt ((e.x - s.x) ^ 2 + (e.y - s.y) ^ 2)

/-- Embedding of z_interval (larndsim/detsim.py lines 38 to 90): order
the endpoints by x, return (0, 0) when the x coordinates are equal. -/
noncomputable def z_interval (start_point end_point : Point3)
    (x_p y_p tolerance : ℝ) : ℝ × ℝ :=
  if start_point.x > end_point.x then
    z_intervalOrd end_point start_point x_p y_p tolerance
  else if start_point.x < end_point.x then
    z_intervalOrd start_point end_point x_p y_p tolerance
  else
    (0, 0)

/-! ## Drifting (src/detsim.py, class Drifting, method forward)

The torch module reads the midpoint and endpoint drift coordinates,
computes drift distances to the anode and the midpoint drift time,
attenuates the electron count, fills the diffusion sigmas, and advances
the three time fields.  TPC_PARAMS of src/detsim.py lines 24 to 31
supply the constants. -/

/-- Drift velocity in cm per microsecond (src/detsim.py line 25). -/
def TPC_vdrift : ℝ := 0.153812

/-- Electron lifetime in microseconds (src/detsim.py line 26). -/
def TPC_lifetime : ℝ := 10e3

/-- Lower z border of the TPC, the anode plane (src/detsim.py line 27). -/
def TPC_zStart : ℝ := -150

/-- Longitudinal diffusion constant (src/detsim.py line 29). -/
def TPC_longDiff : ℝ := 6.2e-6

/-- Transverse diffusion constant (src/detsim.py line 30). -/
def TPC_tranDiff : ℝ := 16.3e-6

/-- Fields of one track row used by Drifting.forward. -/
structure DriftTrack where
  z : ℝ
  z_start : ℝ
  z_end : ℝ
  t : ℝ
  t_start : ℝ
  t_end : ℝ
  n_electrons : ℝ
  long_diff : ℝ
  tran_diff : ℝ

/-- Embedding of Drifting.forward (src/detsim.py lines 90 to 124) for a
single row: drift distances are taken from the midpoint and the two
endpoints, the drift time divides only the midpoint distance by vdrift,
the electron count is attenuated by exp(-driftTime / lifetime), the
sigmas are sqrt(driftTime) times the diffusion constants, and the time
fields are advanced; note that the endpoint updates on lines 121 to 122
add the raw drift distances driftStart and driftEnd, not distances
divided by vdrift. -/
noncomputable def driftForward (x : DriftTrack) : DriftTrack :=
  let zStart := TPC_zStart
  let driftDistance := |x.z - zStart|
  let driftStart := |x.z_start - zStart|
  let driftEnd := |x.z_end - zStart|
  let driftTime := driftDistance / TPC_vdrift
  let lifetimeF := Real.exp (-driftTime / TPC_lifetime)
  let tranD := Real.sqrt driftTime * TPC_tranDiff
  { z := zStart
    z_start := x.z_start
    z_end := x.z_end
    t := x.t + (driftTime + tranD / TPC_vdrift)
    t_start := x.t_start + (driftStart + tranD / TPC_vdrift)
    t_end := x.t_end + (driftEnd + tranD / TPC_vdrift)
    n_electrons := x.n_electrons * lifetimeF
    long_diff := Real.sqrt driftTime * TPC_longDiff
    tran_diff := tranD }

/-! ## Bresenham walk and neighboring pixels
(src/larndsim/pixels_from_track.py)

Nx, Ny (per-plane pixel counts n_pixels[0] and n_pixels[1]) and nPlanes
(tpc_borders.shape[0]) are loaded from the detector descriptor by
larndsim/consts/detector.py, which is not among the sources here;
following the specification they are parameters below. -/

/-- Bounds check used throughout pixels_from_track.py, for example on
line 168: 0 <= x < n_pixels[0] and 0 <= y < n_pixels[1] and
plane < tpc_borders.shape[0].  The source has no lower bound on the
plane index. -/
def pixInBounds (Nx Ny nPlanes x y plane : ℤ) : Bool :=
  decide (0 ≤ x) && decide (x < Nx) && decide (0 ≤ y) && decide (y < Ny) &&
    decide (plane < nPlanes)

/-- One-step-at-a-time Bresenham loop shared by get_num_active_pixels
and get_active_pixels (pixels_from_track.py lines 127 to 141 and 171 to
184): while the current point differs from the end point, move one step
in x or in y according to the error term, and record the visited point.
dx, dy, sx, sy are fixed at loop entry.  The source loop runs until both
coordinates reach the end point; the recursion is bounded here by an
explicit number of steps, which for the inputs used below equals the
number of loop iterations of the source. -/
def bresenhamWalk (dx dy sx sy : ℤ) :
    ℕ → ℤ → ℤ → ℤ → ℤ → ℤ → List (ℤ × ℤ)
  | 0, _, _, _, _, _ => []
  | Nat.succ fuel, x0, y0, x1, y1, err =>
    if x0 = x1 ∧ y0 = y1 then []
    else
      let e2 := 2 * err
      if e2 - dy > dx - e2 then
        (x0 + sx, y0) :: bresenhamWalk dx dy sx sy fuel (x0 + sx) y0 x1 y1 (err + dy)
      else
        (x0, y0 + sy) :: bresenhamWalk dx dy sx sy fuel x0 (y0 + sy) x1 y1 (err + dx)

/-- Visited pixel sequence of the Bresenham walk, starting pixel
included, with the initialization of dx, sx, dy, sy and err of
pixels_from_track.py lines 161 to 165. -/
def walkPixels (x0 y0 x1 y1 : ℤ) : List (ℤ × ℤ) :=
  let dx := |x1 - x0|
  let dy := -|y1 - y0|
  let sx : ℤ := if x0 < x1 then 1 else -1
  let sy : ℤ := if y0 < y1 then 1 else -1
  (x0, y0) :: bresenhamWalk dx dy sx sy ((x1 - x0).natAbs + (y1 - y0).natAbs)
    x0 y0 x1 y1 (dx + dy)

/-- Embedding of get_num_active_pixels (pixels_from_track.py lines 101
to 141): the count n is incremented exactly at the in-bounds visited
pixels, the start included. -/
def get_num_active_pixels (Nx Ny nPlanes x0 y0 x1 y1 plane : ℤ) : ℕ :=
  ((walkPixels x0 y0 x1 y1).filter
    (fun p => pixInBounds Nx Ny nPlanes p.1 p.2 plane)).length

/-- Embedding of the array writes performed by get_active_pixels
(pixels_from_track.py lines 143 to 184) as a trace of (index, value)
pairs: the write index i is the position of the visited pixel in the
walk (incremented every iteration, line 172), and a write happens only
when the visited pixel is in bounds (lines 168 to 169 and 183 to
184). -/
def activeWrites (Nx Ny nPlanes x0 y0 x1 y1 plane : ℤ) : List (ℕ × ℤ) :=
  (walkPixels x0 y0 x1 y1).enum.filterMap
    (fun ip =>
      if pixInBounds Nx Ny nPlanes ip.2.1 ip.2.2 plane
      then some (ip.1, pixel2id Nx Ny ip.2.1 ip.2.2 plane) else none)

/-- Candidate neighbor ids of one active-pixels row, in the loop order
of get_neighboring_pixels (pixels_from_track.py lines 205 to 219):
active pixels in row order, sentinel entries skipped, offsets x_r then
y_r from -radius to radius, out-of-bounds neighbors dropped. -/
def neighborCandidates (Nx Ny nPlanes radius : ℤ) (activeRow : List ℤ) : List ℤ :=
  activeRow.flatMap (fun pix =>
    if pix = -1 then []
    else
      (((List.range (radius - (-radius) + 1).toNat).map (fun k => -radius + (k : ℤ))).flatMap
        (fun xr =>
          ((List.range (radius - (-radius) + 1).toNat).map (fun k => -radius + (k : ℤ))).map
            (fun yr => (xr, yr)))).filterMap
        (fun xy =>
          if pixInBounds Nx Ny nPlanes ((id2pixel Nx Ny pix).1 + xy.1)
              ((id2pixel Nx Ny pix).2.1 + xy.2) (id2pixel Nx Ny pix).2.2
          then some (pixel2id Nx Ny ((id2pixel Nx Ny pix).1 + xy.1)
              ((id2pixel Nx Ny pix).2.1 + xy.2) (id2pixel Nx Ny pix).2.2)
          else none))

/-- One deduplicating insertion of get_neighboring_pixels
(pixels_from_track.py lines 221 to 228): the candidate is compared with
every entry of the row; if absent it is written at position count and
count is incremented.  List.set beyond the row length is the identity,
so the state tracks exactly the contents of the row (a write of the
source past the row end lands outside the row). -/
def insertNbr (st : List ℤ × ℕ) (cand : ℤ) : List ℤ × ℕ :=
  if cand ∈ st.1 then st else (st.1.set st.2 cand, st.2 + 1)

/-- Embedding of get_neighboring_pixels (pixels_from_track.py lines 186
to 230) acting on one row of width W initialized with the sentinel -1
(the allocation of run_simulation): returns the final row and the
count. -/
def get_neighboring_pixels (Nx Ny nPlanes radius : ℤ) (activeRow : List ℤ)
    (W : ℕ) : List ℤ × ℕ :=
  (neighborCandidates Nx Ny nPlanes radius activeRow).foldl insertNbr
    (List.replicate W (-1), 0)

/-- Invariant of the deduplicating insertion loop: the row of width W is
a duplicate-free block of nonnegative written ids followed by sentinel
padding, and the block length agrees with the count capped at W. -/
def NbrInv (W : ℕ) (st : List ℤ × ℕ) : Prop :=
  ∃ pre : List ℤ, pre.Nodup ∧ (∀ v ∈ pre, 0 ≤ v) ∧
    st.1 = pre ++ List.replicate (W - pre.length) (-1) ∧
    pre.length = min st.2 W

end LarndSim

namespace LarndSim

/-! ## Theorems for claims C5 and C8 -/

/-- C5: for every segment, the quench kernel with mode Box sets
n_electrons to max(0, log(alpha + csi) / csi) * dE * MeVToElectrons with
csi = beta * dEdx / (eField * lArDensity), and with mode Birks sets
n_electrons to Ab / (1 + kb * dEdx / (eField * lArDensity)) * dE *
MeVToElectrons. -/
theorem quench_formulas (t : QTrack) :
    quenchTrack box t =
      Except.ok { t with n_electrons :=
        (max 0 (Real.log (alpha + beta * t.dEdx / (eField * lArDensity)) /
          (beta * t.dEdx / (eField * lArDensity))) * t.dE * MeVToElectrons) } ∧
    quenchTrack birks t =
      Except.ok { t with n_electrons :=
        (Ab / (1 + kb * t.dEdx / (eField * lArDensity)) * t.dE * MeVToElectrons) } := by
  constructor
  · simp [quenchTrack]
  · have hbb : (birks : ℤ) ≠ box := by decide
    simp [quenchTrack, hbb]

/-- C8: for in-range inputs (0 ≤ ix < Nx, 0 ≤ iy < Ny, 0 ≤ plane) the
round trip id2pixel (pixel2id ix iy plane) = (ix, iy, plane) holds. -/
theorem pixel_id_round_trip (Nx Ny ix iy plane : ℤ)
    (hx0 : 0 ≤ ix) (hx1 : ix < Nx) (hy0 : 0 ≤ iy) (hy1 : iy < Ny)
    (hp : 0 ≤ plane) :
    id2pixel Nx Ny (pixel2id Nx Ny ix iy plane) = (ix, iy, plane) := by
  have hNx : (0:ℤ) < Nx := lt_of_le_of_lt hx0 hx1
  have hNy : (0:ℤ) < Ny := lt_of_le_of_lt hy0 hy1
  have h1 : (ix + Nx * (iy + Ny * plane)) % Nx = ix := by
    rw [Int.add_mul_emod_self_left, Int.emod_eq_of_lt hx0 hx1]
  have hdiv : (ix + Nx * (iy + Ny * plane)) / Nx = iy + Ny * plane := by
    rw [Int.add_mul_ediv_left _ _ (ne_of_gt hNx),
        Int.ediv_eq_zero_of_lt hx0 hx1, zero_add]
  have h2 : ((ix + Nx * (iy + Ny * plane)) / Nx) % Ny = iy := by
    rw [hdiv, Int.add_mul_emod_self_left, Int.emod_eq_of_lt hy0 hy1]
  have h3 : (ix + Nx * (iy + Ny * plane)) / (Nx * Ny) = plane := by
    have hrw : ix + Nx * (iy + Ny * plane) = (ix + Nx * iy) + (Nx * Ny) * plane := by
      ring
    have hlo : (0:ℤ) ≤ ix + Nx * iy :=
      add_nonneg hx0 (mul_nonneg (le_of_lt hNx) hy0)
    have hhi : ix + Nx * iy < Nx * Ny := by
      have h4 : ix + Nx * iy < Nx * (iy + 1) := by linarith [Nx.mul_add iy 1]
      have h5 : Nx * (iy + 1) ≤ Nx * Ny :=
        mul_le_mul_of_nonneg_left (by linarith) (le_of_lt hNx)
      linarith
    rw [hrw, Int.add_mul_ediv_left _ _ (ne_of_gt (mul_pos hNx hNy)),
        Int.ediv_eq_zero_of_lt hlo hhi, zero_add]
  simp [id2pixel, pixel2id, h1, h2, h3]

/-- Witness for C8 at Nx = 10, Ny = 20, ix = 3, iy = 4, plane = 2. -/
theorem pixel_id_round_trip_witness :
    ((0:ℤ) ≤ 3 ∧ (3:ℤ) < 10 ∧ (0:ℤ) ≤ 4 ∧ (4:ℤ) < 20 ∧ (0:ℤ) ≤ 2) ∧
    id2pixel 10 20 (pixel2id 10 20 3 4 2) = (3, 4, 2) :=
  ⟨by decide,
   pixel_id_round_trip 10 20 3 4 2 (by decide) (by decide) (by decide)
     (by decide) (by decide)⟩

/-! ## Theorem for claim C10 -/

/-- C10: for every prior state and every physics file, set_physics
leaves BIRKS_kb unchanged at its prior value (the global declaration
misspells it as BIRST_kb, so the assignment binds a function-local
name), while BOX_ALPHA, BOX_BETA, E_CHARGE, W_ION and QUENCHING_MODEL
are updated from the values of the file. -/
theorem set_physics_birks_kb_frame (st : PhysicsConsts) (f : PhysicsFile) :
    (set_physics st f).BIRKS_kb = st.BIRKS_kb ∧
    (set_physics st f).BOX_ALPHA = f.box_alpha ∧
    (set_physics st f).BOX_BETA = f.box_beta ∧
    (set_physics st f).E_CHARGE = f.e ∧
    (set_physics st f).W_ION = f.w_ion ∧
    (set_physics st f).QUENCHING_MODEL = f.quenching_model :=
  ⟨rfl, rfl, rfl, rfl, rfl, rfl⟩

/-! ## Theorems for claim C3 -/

/-- C3 counterexample: with t_start = 0, t_end = 1/2, sampling 1 and
padding 20, the code rounds the window end down to 20, while the ceil
formula of the claim gives 21. -/
theorem track_time_window_end_not_ceil :
    (trackTimeWindow 0 (1/2) 1 20).2 = 20 ∧
    ((⌈(((1:ℚ)/2) + 20) / 1⌉ : ℤ) * 1 : ℚ) = 21 ∧
    (trackTimeWindow 0 (1/2) 1 20).2 ≠ ((⌈(((1:ℚ)/2) + 20) / 1⌉ : ℤ) * 1 : ℚ) := by
  have hf : (trackTimeWindow 0 (1/2) 1 20).2 = 20 := by
    show (pyFloorDiv ((1:ℚ)/2 + 20) 1 * 1 : ℚ) = 20
    rw [pyFloorDiv]
    norm_num
  have hc : (⌈(((1:ℚ)/2) + 20) / 1⌉ : ℤ) = 21 := by
    rw [Int.ceil_eq_iff]
    norm_num
  refine ⟨hf, by rw [hc]; norm_num, ?_⟩
  rw [hf, hc]
  norm_num

/-- C3 amended: for every segment, track_current rounds the signal
window to the sampling grid with t_start_round equal to
floor((t_start - pad) / dt) * dt and t_end_round equal to
floor((t_end + pad) / dt) * dt, both ends rounded down. -/
theorem track_time_window_floor (t_start t_end dt pad : ℚ) :
    trackTimeWindow t_start t_end dt pad =
      (((⌊(t_start - pad) / dt⌋ : ℤ) : ℚ) * dt,
       ((⌊(t_end + pad) / dt⌋ : ℤ) : ℚ) * dt) := rfl

/-! ## Theorems for claims C2 and C9 -/

/-- C2: at a track with midpoint on the anode (z = -150), endpoint
z_start = -149 (endpoint drift distance 1 cm) and all time fields zero,
the code advances t_start by the raw drift distance (1), not by the
endpoint drift time plus tran_diff / vdrift as the claim states: the
claimed value 1 / vdrift + tran_diff / vdrift differs from the computed
value 1. -/
theorem drift_endpoint_time_bug :
    (driftForward ⟨-150, -149, -150, 0, 0, 0, 1, 0, 0⟩).t_start = 1 ∧
    (driftForward ⟨-150, -149, -150, 0, 0, 0, 1, 0, 0⟩).t_start ≠
      0 + (|(-149 : ℝ) - TPC_zStart| / TPC_vdrift +
        (driftForward ⟨-150, -149, -150, 0, 0, 0, 1, 0, 0⟩).tran_diff / TPC_vdrift) := by
  have habs : |(-149 : ℝ) - TPC_zStart| = 1 := by
    rw [TPC_zStart]; norm_num
  have hmid : |(-150 : ℝ) - TPC_zStart| = 0 := by
    rw [TPC_zStart]; norm_num
  have hts : (driftForward ⟨-150, -149, -150, 0, 0, 0, 1, 0, 0⟩).t_start = 1 := by
    simp only [driftForward, hmid, habs, zero_div, Real.sqrt_zero, zero_mul]
    norm_num
  refine ⟨hts, ?_⟩
  have htd : (driftForward ⟨-150, -149, -150, 0, 0, 0, 1, 0, 0⟩).tran_diff = 0 := by
    simp only [driftForward, hmid, zero_div, Real.sqrt_zero, zero_mul]
  rw [hts, htd, habs]
  rw [TPC_vdrift]
  norm_num

/-- C9 counterexample: a track with midpoint on the anode (z = -150) and
n_electrons = 5 keeps n_electrons = 5 after drifting (the attenuation
factor is exp 0 = 1), so n_electrons does not strictly decrease for
every segment. -/
theorem drift_n_electrons_no_decrease :
    ¬ ((driftForward ⟨-150, -150, -150, 0, 0, 0, 5, 0, 0⟩).n_electrons <
       (DriftTrack.mk (-150) (-150) (-150) 0 0 0 5 0 0).n_electrons) := by
  have hmid : |(-150 : ℝ) - TPC_zStart| = 0 := by
    rw [TPC_zStart]; norm_num
  have hne : (driftForward ⟨-150, -150, -150, 0, 0, 0, 5, 0, 0⟩).n_electrons = 5 := by
    simp only [driftForward, hmid, zero_div, neg_zero, Real.exp_zero, mul_one]
  rw [hne]
  simp

/-- C9 amended: drifting strictly decreases n_electrons for every
segment whose midpoint drift distance and electron count are positive,
and both diffusion sigmas written by drifting are strictly increasing
functions of the midpoint drift distance. -/
theorem drift_monotone (tr tr1 tr2 : DriftTrack)
    (hd : 0 < |tr.z - TPC_zStart|) (hn : 0 < tr.n_electrons)
    (h12 : |tr1.z - TPC_zStart| < |tr2.z - TPC_zStart|) :
    (driftForward tr).n_electrons < tr.n_electrons ∧
    (driftForward tr1).long_diff < (driftForward tr2).long_diff ∧
    (driftForward tr1).tran_diff < (driftForward tr2).tran_diff := by
  have hv : (0:ℝ) < TPC_vdrift := by rw [TPC_vdrift]; norm_num
  have hsq : Real.sqrt (|tr1.z - TPC_zStart| / TPC_vdrift) <
      Real.sqrt (|tr2.z - TPC_zStart| / TPC_vdrift) := by
    refine Real.sqrt_lt_sqrt (div_nonneg (abs_nonneg _) hv.le) ?_
    exact (div_lt_div_iff_of_pos_right hv).mpr h12
  refine ⟨?_, ?_, ?_⟩
  · have hdt : 0 < |tr.z - TPC_zStart| / TPC_vdrift := div_pos hd hv
    have hl : (0:ℝ) < TPC_lifetime := by rw [TPC_lifetime]; norm_num
    have hexp : Real.exp (-(|tr.z - TPC_zStart| / TPC_vdrift) / TPC_lifetime) < 1 := by
      refine Real.exp_lt_one_iff.mpr ?_
      exact div_neg_of_neg_of_pos (neg_neg_of_pos hdt) hl
    have := mul_lt_of_lt_one_right hn hexp
    simpa only [driftForward] using this
  · have hc : (0:ℝ) < TPC_longDiff := by rw [TPC_longDiff]; norm_num
    have := mul_lt_mul_of_pos_right hsq hc
    simpa only [driftForward] using this
  · have hc : (0:ℝ) < TPC_tranDiff := by rw [TPC_tranDiff]; norm_num
    have := mul_lt_mul_of_pos_right hsq hc
    simpa only [driftForward] using this

/-- Witness for the amended C9 at tracks with midpoint drift distances
10 (for the decrease) and 0 versus 10 (for the sigma monotonicity). -/
theorem drift_monotone_witness :
    (0 < |(-140 : ℝ) - TPC_zStart| ∧
     0 < (DriftTrack.mk (-140) (-140) (-140) 0 0 0 5 0 0).n_electrons ∧
     |(-150 : ℝ) - TPC_zStart| < |(-140 : ℝ) - TPC_zStart|) ∧
    ((driftForward ⟨-140, -140, -140, 0, 0, 0, 5, 0, 0⟩).n_electrons <
       (DriftTrack.mk (-140) (-140) (-140) 0 0 0 5 0 0).n_electrons ∧
     (driftForward ⟨-150, -150, -150, 0, 0, 0, 5, 0, 0⟩).long_diff <
       (driftForward ⟨-140, -140, -140, 0, 0, 0, 5, 0, 0⟩).long_diff ∧
     (driftForward ⟨-150, -150, -150, 0, 0, 0, 5, 0, 0⟩).tran_diff <
       (driftForward ⟨-140, -140, -140, 0, 0, 0, 5, 0, 0⟩).tran_diff) := by
  have h1 : 0 < |(-140 : ℝ) - TPC_zStart| := by
    rw [TPC_zStart]; norm_num
  have h2 : 0 < (DriftTrack.mk (-140) (-140) (-140) 0 0 0 5 0 0).n_electrons := by
    norm_num
  have h3 : |(-150 : ℝ) - TPC_zStart| < |(-140 : ℝ) - TPC_zStart| := by
    rw [TPC_zStart]; norm_num
  exact ⟨⟨h1, h2, h3⟩,
    drift_monotone ⟨-140, -140, -140, 0, 0, 0, 5, 0, 0⟩
      ⟨-150, -150, -150, 0, 0, 0, 5, 0, 0⟩
      ⟨-140, -140, -140, 0, 0, 0, 5, 0, 0⟩ h1 h2 h3⟩

/-! ## Theorem for claim C1

The allocation in run_simulation (cli/simulate_pixels.py lines 307 to
329) gives each active_pixels row the width max_pixels[0], the batch
maximum of get_num_active_pixels, which counts only the in-bounds
pixels of the walk.  The write index of get_active_pixels, however, is
the position of the pixel in the walk, incremented also at
out-of-bounds steps.  A segment whose walk enters the plane from
outside therefore writes at indices at or past the row width. -/

/-- C1: counter-demonstration on a 10 by 10 single-plane geometry with a
one-segment batch walking from pixel (-3, 0) to (1, 0): the batch
maximum of get_num_active_pixels is 2, so the active_pixels row has
width 2, yet both writes of get_active_pixels land at indices 3 and 4,
past the row end; the claim that writes never index past the row end
fails. -/
theorem active_pixels_write_overflow :
    get_num_active_pixels 10 10 1 (-3) 0 1 0 0 = 2 ∧
    activeWrites 10 10 1 (-3) 0 1 0 0 = [(3, 0), (4, 1)] ∧
    ∀ w ∈ activeWrites 10 10 1 (-3) 0 1 0 0, 2 ≤ w.1 := by
  decide

/-! ## Theorems for claim C7 -/

lemma neighborCandidates_nonneg (Nx Ny nPlanes radius : ℤ) (activeRow : List ℤ)
    (hNx : 0 < Nx) (hNy : 0 < Ny)
    (hrow : ∀ a ∈ activeRow, a = -1 ∨ 0 ≤ a) :
    ∀ c ∈ neighborCandidates Nx Ny nPlanes radius activeRow, 0 ≤ c := by
  intro c hc
  rw [neighborCandidates, List.mem_flatMap] at hc
  obtain ⟨pix, hpix, hc⟩ := hc
  by_cases hneg : pix = -1
  · rw [if_pos hneg] at hc
    exact absurd hc (List.not_mem_nil c)
  · rw [if_neg hneg, List.mem_filterMap] at hc
    obtain ⟨xy, hxy, hsome⟩ := hc
    by_cases hb : pixInBounds Nx Ny nPlanes ((id2pixel Nx Ny pix).1 + xy.1)
        ((id2pixel Nx Ny pix).2.1 + xy.2) (id2pixel Nx Ny pix).2.2 = true
    · rw [if_pos hb, Option.some_inj] at hsome
      have hpix0 : 0 ≤ pix := (hrow pix hpix).resolve_left hneg
      have hplane : 0 ≤ (id2pixel Nx Ny pix).2.2 :=
        Int.ediv_nonneg hpix0 (mul_pos hNx hNy).le
      rw [pixInBounds] at hb
      simp only [Bool.and_eq_true, decide_eq_true_eq] at hb
      obtain ⟨⟨⟨⟨hx0, _⟩, hy0⟩, _⟩, _⟩ := hb
      rw [← hsome, pixel2id]
      exact add_nonneg hx0
        (mul_nonneg hNx.le (add_nonneg hy0 (mul_nonneg hNy.le hplane)))
    · rw [if_neg hb] at hsome
      exact absurd hsome (by simp)

lemma insertNbr_inv {W : ℕ} {st : List ℤ × ℕ} {cand : ℤ}
    (hc : 0 ≤ cand) (h : NbrInv W st) : NbrInv W (insertNbr st cand) := by
  obtain ⟨pre, hnd, hpos, hrow, hlen⟩ := h
  rw [insertNbr]
  by_cases hmem : cand ∈ st.1
  · rw [if_pos hmem]
    exact ⟨pre, hnd, hpos, hrow, hlen⟩
  · rw [if_neg hmem]
    have hcpre : cand ∉ pre := fun hin =>
      hmem (hrow ▸ List.mem_append_left _ hin)
    by_cases hlt : st.2 < W
    · have hplen : pre.length = st.2 := by omega
      refine ⟨pre ++ [cand], ?_, ?_, ?_, ?_⟩
      · rw [List.nodup_append]
        exact ⟨hnd, List.nodup_singleton _,
          fun a ha hb => hcpre (by rwa [List.mem_singleton.mp hb] at ha)⟩
      · intro v hv
        rcases List.mem_append.mp hv with h | h
        · exact hpos v h
        · rw [List.mem_singleton.mp h]; exact hc
      · show st.1.set st.2 cand = _
        rw [hrow, List.set_append_right _ _ (by omega), hplen, Nat.sub_self]
        have hsplit : W - st.2 = (W - (st.2 + 1)) + 1 := by omega
        rw [hsplit, List.replicate_succ, List.set_cons_zero]
        simp [List.append_assoc, hplen]
      · simp only [List.length_append, List.length_singleton, hplen]
        omega
    · have hplen : pre.length = W := by omega
      have hrow2 : st.1 = pre := by
        rw [hrow, hplen, Nat.sub_self, List.replicate_zero, List.append_nil]
      refine ⟨pre, hnd, hpos, ?_, ?_⟩
      · show st.1.set st.2 cand = _
        rw [hrow2, List.set_eq_of_length_le (by omega), hplen, Nat.sub_self,
          List.replicate_zero, List.append_nil]
      · rw [hplen]; omega

lemma foldl_insertNbr_inv {W : ℕ} :
    ∀ (cands : List ℤ) (st : List ℤ × ℕ),
      (∀ c ∈ cands, 0 ≤ c) → NbrInv W st → NbrInv W (cands.foldl insertNbr st)
  | [], _, _, h => h
  | c :: cs, st, hall, h =>
      foldl_insertNbr_inv cs (insertNbr st c)
        (fun x hx => hall x (List.mem_cons_of_mem _ hx))
        (insertNbr_inv (hall c (List.mem_cons_self _ _)) h)

/-- C7: after get_neighboring_pixels fills a row of width W from an
active-pixels row whose entries are the sentinel -1 or valid
(nonnegative) pixel ids, every non-sentinel id appears exactly once in
the resulting neighboring-pixels row. -/
theorem neighboring_pixels_row_unique (Nx Ny nPlanes radius : ℤ)
    (activeRow : List ℤ) (W : ℕ) (hNx : 0 < Nx) (hNy : 0 < Ny)
    (hrow : ∀ a ∈ activeRow, a = -1 ∨ 0 ≤ a) :
    ∀ v ∈ (get_neighboring_pixels Nx Ny nPlanes radius activeRow W).1, v ≠ -1 →
      ((get_neighboring_pixels Nx Ny nPlanes radius activeRow W).1).count v = 1 := by
  have hinv : NbrInv W (get_neighboring_pixels Nx Ny nPlanes radius activeRow W) := by
    apply foldl_insertNbr_inv
    · exact neighborCandidates_nonneg Nx Ny nPlanes radius activeRow hNx hNy hrow
    · exact ⟨[], List.nodup_nil, by simp, by simp, by simp⟩
  obtain ⟨pre, hnd, hpos, hrweq, hlen⟩ := hinv
  intro v hv hvne
  rw [hrweq] at hv ⊢
  have hvpre : v ∈ pre := by
    rcases List.mem_append.mp hv with h | h
    · exact h
    · exact absurd (List.eq_of_mem_replicate h) hvne
  rw [List.count_append, List.count_eq_one_of_mem hnd hvpre,
    List.count_replicate]
  rw [if_neg (by simp [Ne.symm hvne])]

/-! ## Theorems for claim C4 -/

lemma doca_nonneg (s e : Point3) (x_p y_p : ℝ) : 0 ≤ doca s e x_p y_p := by
  simp only [doca]
  split_ifs with h1 h2
  · exact Real.sqrt_nonneg _
  · exact Real.sqrt_nonneg _
  · exact div_nonneg (abs_nonneg _) (Real.sqrt_nonneg _)

lemma xPocaClamped_mem (s e : Point3) (x_p y_p : ℝ) (hx : s.x < e.x) :
    s.x ≤ xPocaClamped s e x_p y_p ∧ xPocaClamped s e x_p y_p ≤ e.x := by
  rw [xPocaClamped]
  split_ifs with h1 h2
  · exact ⟨le_refl _, hx.le⟩
  · exact ⟨hx.le, le_refl _⟩
  · exact ⟨not_lt.mp h1, not_lt.mp h2⟩

/-- Closed form of the tolerance branch of z_intervalOrd: the two chord
z coordinates are the POCA z coordinate plus and minus the signed
deviation. -/
lemma z_intervalOrd_closed (s e : Point3) (x_p y_p tolerance : ℝ)
    (hx : s.x < e.x) (htol : doca s e x_p y_p < tolerance) :
    z_intervalOrd s e x_p y_p tolerance =
      (min (zPocaOnSeg s e x_p y_p - zDev s e x_p y_p tolerance)
           (zPocaOnSeg s e x_p y_p + zDev s e x_p y_p tolerance),
       max (zPocaOnSeg s e x_p y_p - zDev s e x_p y_p tolerance)
           (zPocaOnSeg s e x_p y_p + zDev s e x_p y_p tolerance)) := by
  have hdx : (0:ℝ) < e.x - s.x := sub_pos.mpr hx
  have hL2 : (0:ℝ) < Real.sqrt ((e.x - s.x) ^ 2 + (e.y - s.y) ^ 2) :=
    Real.sqrt_pos.mpr (add_pos_of_pos_of_nonneg (pow_pos hdx 2) (sq_nonneg _))
  have hL3 : (0:ℝ) <
      Real.sqrt ((e.x - s.x) ^ 2 + (e.y - s.y) ^ 2 + (e.z - s.z) ^ 2) :=
    Real.sqrt_pos.mpr
      (add_pos_of_pos_of_nonneg
        (add_pos_of_pos_of_nonneg (pow_pos hdx 2) (sq_nonneg _)) (sq_nonneg _))
  simp only [z_intervalOrd]
  rw [if_pos htol]
  rw [Prod.mk.injEq]
  constructor
  · congr 1
    · rw [zPocaOnSeg, zDev]
      field_simp
      ring
    · rw [zPocaOnSeg, zDev]
      field_simp
      ring
  · congr 1
    · rw [zPocaOnSeg, zDev]
      field_simp
      ring
    · rw [zPocaOnSeg, zDev]
      field_simp
      ring

/-- Lower and upper bound of the affine map on the unit interval. -/
lemma affine_between {a d t : ℝ} (ht0 : 0 ≤ t) (ht1 : t ≤ 1) :
    min a (a + d) ≤ a + d * t ∧ a + d * t ≤ max a (a + d) := by
  rcases le_total 0 d with hd | hd
  · constructor
    · exact le_trans (min_le_left _ _) (by nlinarith)
    · exact le_trans (by nlinarith [mul_le_of_le_one_right hd ht1])
        (le_max_right _ _)
  · constructor
    · refine le_trans (min_le_right _ _) ?_
      nlinarith [mul_le_mul_of_nonpos_left ht1 hd]
    · exact le_trans (by nlinarith) (le_max_left _ _)

/-- C4 amended: for every segment with distinct endpoint x coordinates
and every pixel center whose distance of closest approach is below the
tolerance, z_interval is independent of the endpoint order, returns an
ordered pair, and both returned z values lie between the minimum and
the maximum of the segment endpoint z coordinates widened on each side
by tolerance times |z_end - z_start| divided by the 2-D projected
segment length; the interval is not clamped to the segment endpoints
themselves. -/
theorem z_interval_within_widened_range (s e : Point3) (x_p y_p tolerance : ℝ)
    (hx : s.x < e.x) (htol : doca s e x_p y_p < tolerance) :
    z_interval e s x_p y_p tolerance = z_interval s e x_p y_p tolerance ∧
    min s.z e.z - tolerance * |e.z - s.z| /
        Real.sqrt ((e.x - s.x) ^ 2 + (e.y - s.y) ^ 2)
      ≤ (z_interval s e x_p y_p tolerance).1 ∧
    (z_interval s e x_p y_p tolerance).1 ≤ (z_interval s e x_p y_p tolerance).2 ∧
    (z_interval s e x_p y_p tolerance).2
      ≤ max s.z e.z + tolerance * |e.z - s.z| /
          Real.sqrt ((e.x - s.x) ^ 2 + (e.y - s.y) ^ 2) := by
  have hdx : (0:ℝ) < e.x - s.x := sub_pos.mpr hx
  have hL2 : (0:ℝ) < Real.sqrt ((e.x - s.x) ^ 2 + (e.y - s.y) ^ 2) :=
    Real.sqrt_pos.mpr (add_pos_of_pos_of_nonneg (pow_pos hdx 2) (sq_nonneg _))
  have hzi : z_interval s e x_p y_p tolerance = z_intervalOrd s e x_p y_p tolerance := by
    rw [z_interval, if_neg (lt_asymm hx), if_pos hx]
  have hswap : z_interval e s x_p y_p tolerance = z_intervalOrd s e x_p y_p tolerance := by
    rw [z_interval, if_pos hx]
  rw [hswap, hzi, z_intervalOrd_closed s e x_p y_p tolerance hx htol]
  have hxpm := xPocaClamped_mem s e x_p y_p hx
  have ht0 : 0 ≤ (xPocaClamped s e x_p y_p - s.x) / (e.x - s.x) :=
    div_nonneg (by linarith [hxpm.1]) hdx.le
  have ht1 : (xPocaClamped s e x_p y_p - s.x) / (e.x - s.x) ≤ 1 :=
    (div_le_one hdx).mpr (by linarith [hxpm.2])
  have hP : zPocaOnSeg s e x_p y_p =
      s.z + (e.z - s.z) * ((xPocaClamped s e x_p y_p - s.x) / (e.x - s.x)) := by
    rw [zPocaOnSeg, mul_div_assoc]
  have haf := @affine_between s.z (e.z - s.z)
    ((xPocaClamped s e x_p y_p - s.x) / (e.x - s.x)) ht0 ht1
  have hezz : s.z + (e.z - s.z) = e.z := by ring
  have hPlo := haf.1
  have hPhi := haf.2
  rw [hezz, ← hP] at hPlo hPhi
  have htol0 : 0 ≤ tolerance := le_trans (doca_nonneg s e x_p y_p) htol.le
  have hdL0 : 0 ≤ Real.sqrt (tolerance ^ 2 - doca s e x_p y_p ^ 2) :=
    Real.sqrt_nonneg _
  have hdLle : Real.sqrt (tolerance ^ 2 - doca s e x_p y_p ^ 2) ≤ tolerance := by
    calc Real.sqrt (tolerance ^ 2 - doca s e x_p y_p ^ 2)
        ≤ Real.sqrt (tolerance ^ 2) :=
          Real.sqrt_le_sqrt (sub_le_self _ (sq_nonneg _))
      _ = tolerance := Real.sqrt_sq htol0
  have hDabs : |zDev s e x_p y_p tolerance| =
      |e.z - s.z| * Real.sqrt (tolerance ^ 2 - doca s e x_p y_p ^ 2) /
        Real.sqrt ((e.x - s.x) ^ 2 + (e.y - s.y) ^ 2) := by
    rw [zDev, abs_div, abs_mul, abs_of_nonneg hdL0, abs_of_pos hL2]
  have hDbound : |zDev s e x_p y_p tolerance| ≤
      tolerance * |e.z - s.z| /
        Real.sqrt ((e.x - s.x) ^ 2 + (e.y - s.y) ^ 2) := by
    rw [hDabs]
    have hnum : |e.z - s.z| * Real.sqrt (tolerance ^ 2 - doca s e x_p y_p ^ 2)
        ≤ tolerance * |e.z - s.z| := by
      rw [mul_comm tolerance]
      exact mul_le_mul_of_nonneg_left hdLle (abs_nonneg _)
    exact div_le_div_of_nonneg_right hnum hL2.le
  refine ⟨rfl, ?_, ?_, ?_⟩
  · dsimp only
    refine le_min ?_ ?_
    · have := le_abs_self (zDev s e x_p y_p tolerance)
      linarith
    · have := neg_abs_le (zDev s e x_p y_p tolerance)
      linarith
  · dsimp only
    exact min_le_max
  · dsimp only
    refine max_le ?_ ?_
    · have := neg_abs_le (zDev s e x_p y_p tolerance)
      linarith
    · have := le_abs_self (zDev s e x_p y_p tolerance)
      linarith

lemma pocaX_ex : pocaX ⟨0, 0, 0⟩ ⟨1, 0, 1⟩ (1/2) 0 = 1/2 := by
  simp only [pocaX]
  norm_num

lemma doca_ex : doca ⟨0, 0, 0⟩ ⟨1, 0, 1⟩ (1/2) 0 = 0 := by
  simp only [doca, pocaX_ex]
  norm_num

lemma xPocaClamped_ex : xPocaClamped ⟨0, 0, 0⟩ ⟨1, 0, 1⟩ (1/2) 0 = 1/2 := by
  simp only [xPocaClamped, pocaX_ex]
  norm_num

lemma zPocaOnSeg_ex : zPocaOnSeg ⟨0, 0, 0⟩ ⟨1, 0, 1⟩ (1/2) 0 = 1/2 := by
  simp only [zPocaOnSeg, xPocaClamped_ex]
  norm_num

lemma zDev_ex : zDev ⟨0, 0, 0⟩ ⟨1, 0, 1⟩ (1/2) 0 10 = 10 := by
  simp only [zDev, doca_ex]
  have h100 : Real.sqrt ((10:ℝ) ^ 2 - 0 ^ 2) = 10 := by
    rw [show ((10:ℝ) ^ 2 - 0 ^ 2) = 10 ^ 2 by norm_num]
    exact Real.sqrt_sq (by norm_num)
  have h1 : Real.sqrt (((1:ℝ) - 0) ^ 2 + (0 - 0) ^ 2) = 1 := by
    rw [show (((1:ℝ) - 0) ^ 2 + (0 - 0) ^ 2) = 1 by norm_num]
    exact Real.sqrt_one
  rw [h100, h1]
  norm_num

/-- C4 counterexample: for the segment from (0, 0, 0) to (1, 0, 1), the
pixel center (1/2, 0) and tolerance 10, the distance of closest
approach is 0 < 10, yet the first component of the returned interval is
min(-19/2, 21/2) = -19/2, strictly below the minimum 0 of the endpoint
z coordinates: the returned interval is not clamped by the segment
endpoints. -/
theorem z_interval_escapes_segment :
    doca ⟨0, 0, 0⟩ ⟨1, 0, 1⟩ (1/2) 0 < 10 ∧
    (z_interval ⟨0, 0, 0⟩ ⟨1, 0, 1⟩ (1/2) 0 10).1 <
      min (Point3.mk 0 0 0).z (Point3.mk 1 0 1).z := by
  have hd : doca ⟨0, 0, 0⟩ ⟨1, 0, 1⟩ (1/2) 0 < 10 := by
    rw [doca_ex]; norm_num
  refine ⟨hd, ?_⟩
  have hx : (Point3.mk 0 0 0).x < (Point3.mk 1 0 1).x := by norm_num
  have hzi : z_interval ⟨0, 0, 0⟩ ⟨1, 0, 1⟩ (1/2) 0 10 =
      z_intervalOrd ⟨0, 0, 0⟩ ⟨1, 0, 1⟩ (1/2) 0 10 := by
    rw [z_interval, if_neg (lt_asymm hx), if_pos hx]
  rw [hzi, z_intervalOrd_closed ⟨0, 0, 0⟩ ⟨1, 0, 1⟩ (1/2) 0 10 hx hd,
    zPocaOnSeg_ex, zDev_ex]
  have hmin : min ((1:ℝ)/2 - 10) (1/2 + 10) = -(19/2) := by
    rw [min_eq_left (by norm_num)]
    norm_num
  dsimp only
  rw [hmin]
  norm_num

/-- Witness for the amended C4 at the segment from (0, 0, 0) to
(1, 0, 1), pixel center (1/2, 0) and tolerance 10. -/
theorem z_interval_within_widened_range_witness :
    ((Point3.mk 0 0 0).x < (Point3.mk 1 0 1).x ∧
     doca ⟨0, 0, 0⟩ ⟨1, 0, 1⟩ (1/2) 0 < 10) ∧
    (z_interval ⟨1, 0, 1⟩ ⟨0, 0, 0⟩ (1/2) 0 10 =
       z_interval ⟨0, 0, 0⟩ ⟨1, 0, 1⟩ (1/2) 0 10 ∧
     min (Point3.mk 0 0 0).z (Point3.mk 1 0 1).z -
         10 * |(Point3.mk 1 0 1).z - (Point3.mk 0 0 0).z| /
           Real.sqrt (((Point3.mk 1 0 1).x - (Point3.mk 0 0 0).x) ^ 2 +
             ((Point3.mk 1 0 1).y - (Point3.mk 0 0 0).y) ^ 2)
       ≤ (z_interval ⟨0, 0, 0⟩ ⟨1, 0, 1⟩ (1/2) 0 10).1 ∧
     (z_interval ⟨0, 0, 0⟩ ⟨1, 0, 1⟩ (1/2) 0 10).1 ≤
       (z_interval ⟨0, 0, 0⟩ ⟨1, 0, 1⟩ (1/2) 0 10).2 ∧
     (z_interval ⟨0, 0, 0⟩ ⟨1, 0, 1⟩ (1/2) 0 10).2
       ≤ max (Point3.mk 0 0 0).z (Point3.mk 1 0 1).z +
           10 * |(Point3.mk 1 0 1).z - (Point3.mk 0 0 0).z| /
             Real.sqrt (((Point3.mk 1 0 1).x - (Point3.mk 0 0 0).x) ^ 2 +
               ((Point3.mk 1 0 1).y - (Point3.mk 0 0 0).y) ^ 2)) :=
  ⟨⟨by norm_num, by rw [doca_ex]; norm_num⟩,
   z_interval_within_widened_range ⟨0, 0, 0⟩ ⟨1, 0, 1⟩ (1/2) 0 10
     (by norm_num) (by rw [doca_ex]; norm_num)⟩

/-- Witness for C7 on a 10 by 10 single-plane geometry, radius 1, the
active row [0, 1, -1] and row width 30. -/
theorem neighboring_pixels_row_unique_witness :
    ((0:ℤ) < 10 ∧ (0:ℤ) < 10 ∧
      ∀ a ∈ ([0, 1, -1] : List ℤ), a = -1 ∨ 0 ≤ a) ∧
    (∀ v ∈ (get_neighboring_pixels 10 10 1 1 [0, 1, -1] 30).1, v ≠ -1 →
      ((get_neighboring_pixels 10 10 1 1 [0, 1, -1] 30).1).count v = 1) :=
  ⟨⟨by decide, by decide, by decide⟩,
   neighboring_pixels_row_unique 10 10 1 1 [0, 1, -1] 30
     (by decide) (by decide) (by decide)⟩

end LarndSim
